import Mathlib

/-!
Verification of the mongo-bulk-exporter (src/main.go) against its
specification.  The Go program is shallowly embedded: each Go function of
the core (the constants, `exportWorker`, `saveLastID`, `loadLastID`, and
the shutdown protocol of `main`) becomes an executable Lean definition,
and the claims become theorems about those definitions.

Modelling choices, fixed once here:

* A MongoDB `primitive.ObjectID` is 12 bytes compared bytewise; its
  bytewise lexicographic order on fixed-length strings coincides with the
  numeric order of the 96-bit big-endian value, so an ObjectID is a `Nat`
  (meaningful values are `< 16^24`); the nil ObjectID is `0`
  (`primitive.NilObjectID`, all zero bytes, `IsZero`).
* `ObjectID.Hex` (used by `saveLastID`) prints exactly 24 lowercase hex
  digits, big-endian; `primitive.ObjectIDFromHex` (used by `loadLastID`)
  accepts exactly 24 hex digits of either case.  Both are modelled on
  `List Char`.
* A BSON document (`bson.M`) is an association list from field names to
  BSON values; only the distinctions the program observes are kept
  (ObjectID-valued fields, string-valued fields, anything else).
* The MongoDB query issued by `exportWorker` (filter `_id > cursor` /
  empty filter, sort `_id` ascending, limit `batchSize`) is modelled as
  filter-sort-take over a store given as a list of documents.  `$gt`
  with an ObjectID operand matches only ObjectID-typed `_id` values
  (BSON type bracketing); the empty filter matches every document.
* Fallible external effects (the Find call, cursor decoding, file
  creation, JSON encoding, the checkpoint write) are driven by an
  explicit per-iteration fault oracle, and the loop takes a fuel
  parameter; adequacy of the fuel is proved, not assumed.
-/

namespace MongoExport

/-- The configured batch size: `batchSize = 100000` in main.go line 22. -/
def batchSize : Nat := 100000

/-- Hex digit characters as produced by Go's `hex.EncodeToString`
(lowercase). -/
def hexDigit (n : Nat) : Char :=
  if n < 10 then Char.ofNat (48 + n) else Char.ofNat (87 + n)

/-- Big-endian fixed-width hex rendering: `hexChars w n` is the `w`
lowest hex digits of `n`, most significant first. -/
def hexChars : Nat → Nat → List Char
  | 0, _ => []
  | w + 1, n => hexChars w (n / 16) ++ [hexDigit (n % 16)]

/-- `primitive.ObjectID.Hex`: the 24-digit lowercase hex form. -/
def oidHex (c : Nat) : List Char := hexChars 24 c

/-- Numeric value of a hex character, `none` if it is not a hex digit
(Go's `hex.DecodeString` accepts both cases). -/
def hexVal (c : Char) : Option Nat :=
  if 48 ≤ c.toNat ∧ c.toNat ≤ 57 then some (c.toNat - 48)
  else if 97 ≤ c.toNat ∧ c.toNat ≤ 102 then some (c.toNat - 87)
  else if 65 ≤ c.toNat ∧ c.toNat ≤ 70 then some (c.toNat - 55)
  else none

/-- Whether every character is a hex digit. -/
def allHex (l : List Char) : Bool := l.all (fun c => (hexVal c).isSome)

/-- Accumulated numeric value of a hex string (junk digits count 0; only
used under `allHex`). -/
def hexValue (l : List Char) : Nat :=
  l.foldl (fun acc c => acc * 16 + ((hexVal c).getD 0)) 0

/-- `primitive.ObjectIDFromHex`: succeeds exactly on 24 hex digits. -/
def objectIDFromHex (l : List Char) : Option Nat :=
  if l.length = 24 ∧ allHex l then some (hexValue l) else none

/-- Go's `strings.TrimSpace` restricted to the ASCII space characters
(sufficient here: hex digits are never spaces of any kind). -/
def isSpaceChar (c : Char) : Bool :=
  c = ' ' ∨ c = '\t' ∨ c = '\n' ∨ c = '\r'

/-- `strings.TrimSpace` on the character list. -/
def trimSpace (l : List Char) : List Char :=
  ((l.dropWhile isSpaceChar).reverse.dropWhile isSpaceChar).reverse

/-- The content of `last_id.txt` after a successful `saveLastID` call
(main.go lines 151-163): exactly the hex form of the id, no metadata. -/
def saveLastIDContent (lastID : Nat) : List Char := oidHex lastID

/-- `loadLastID` (main.go lines 166-181): given the checkpoint file
state (`none` = unreadable/absent), return the parsed id, or the nil
ObjectID when the file is absent or unparsable. -/
def loadLastID : Option (List Char) → Nat
  | none => 0
  | some data =>
    match objectIDFromHex (trimSpace data) with
    | some lastID => lastID
    | none => 0

/-!  The store and the query issued by `exportWorker`. -/

/-- A BSON value, keeping only the distinctions the program observes:
ObjectID values (compared and cast), strings, and everything else. -/
inductive BVal
  | oid (k : Nat)
  | str (s : List Char)
  | other
deriving DecidableEq, Repr

/-- A BSON document (`bson.M`): an association list field name ↦ value. -/
abbrev Doc := List (String × BVal)

/-- The `"_id"` field of a document, when present and ObjectID-typed. -/
def idOf (d : Doc) : Option Nat :=
  match d.lookup "_id" with
  | some (BVal.oid k) => some k
  | _ => none

/-- The key used for sorting, with a default for documents without an
ObjectID `_id` (all theorems about ordering assume well-keyed stores). -/
def keyD (d : Doc) : Nat := (idOf d).getD 0

/-- Every document in the list carries an ObjectID-typed `"_id"`.
MongoDB guarantees this for real collections (`_id` is mandatory and
almost always an ObjectID); the program assumes it in the cast on
main.go line 139. -/
def WellKeyed (l : List Doc) : Prop := ∀ d ∈ l, (idOf d).isSome

/-- Strengthening of `WellKeyed`: every document carries a non-nil
ObjectID `"_id"` (real driver-generated ObjectIDs are never the nil
value).  Needed for termination: a record whose id is the nil ObjectID
would reset the cursor to "start of set". -/
def PosKeyed (l : List Doc) : Prop := ∀ d ∈ l, ∃ j, idOf d = some j ∧ 0 < j

/-- The filter built on main.go lines 94-99: for a non-zero cursor the
query is the document `_id > lastID` — under BSON type bracketing a
greater-than comparison with an ObjectID operand matches exactly the
ObjectID-typed ids greater than it; for the zero (nil) cursor the
filter is the empty document, which matches every document. -/
def matchFilter (cursor : Nat) (d : Doc) : Bool :=
  if cursor = 0 then true
  else
    match idOf d with
    | some k => decide (cursor < k)
    | none => false

/-- Ascending `_id` order used by the sort option of the Find call. -/
def keyLE (a b : Doc) : Prop := keyD a ≤ keyD b

instance : DecidableRel keyLE := fun a b => Nat.decLe (keyD a) (keyD b)

instance : IsTotal Doc keyLE := ⟨fun a b => Nat.le_total (keyD a) (keyD b)⟩

instance : IsTrans Doc keyLE := ⟨fun _ _ _ => Nat.le_trans⟩

/-- The `collection.Find` call of main.go lines 101-105, as its
denotation over a store listed as documents: filter by the cursor
predicate, sort ascending by `_id`, return at most `batchSize` records
(the limit option). -/
def findBatch (store : List Doc) (cursor : Nat) : List Doc :=
  ((store.filter (matchFilter cursor)).insertionSort keyLE).take batchSize

/-!  The per-lane loop of `exportWorker` (main.go lines 88-148). -/

/-- Fault oracle for one loop iteration: which of the fallible external
operations fail this time.  `fetchErr` is a `collection.Find` error
(line 106), `decodeErr` a `cursor.All` error (line 112), `createErr` an
`os.Create` error (line 126), `encodeErr` an `encoder.Encode` error
(line 132), `saveErr` a failure inside `saveLastID` (lines 153/160). -/
structure Faults where
  fetchErr : Bool := false
  decodeErr : Bool := false
  createErr : Bool := false
  encodeErr : Bool := false
  saveErr : Bool := false
deriving DecidableEq, Repr

/-- The no-fault oracle. -/
def noFaults : Faults := {}

/-- One lane's state: the roaming cursor `lastID`, the per-invocation
batch counter `batchNum` (starts at 1, line 92), the fully written
batch files (path and contents, in write order), and the current content
of the checkpoint file `last_id.txt` (`none` = absent). -/
structure LaneState where
  cursor : Nat
  batchNum : Nat
  files : List (String × List Doc)
  checkpoint : Option (List Char)
deriving DecidableEq, Repr

/-- Terminal status of a lane's inner loop. -/
inductive LaneStatus
  | done
  | failed
  | panicked
  | outOfFuel
deriving DecidableEq, Repr

/-- Result of one loop iteration: stop with a status, or continue. -/
inductive StepRes
  | stop (st : LaneState) (status : LaneStatus)
  | next (st : LaneState)
deriving DecidableEq, Repr

/-- The batch file path: `fmt.Sprintf` of the batch number and worker
id (main.go line 124), joined to `exportDir = "exports"`. -/
def filePathFor (seq wid : Nat) : String :=
  "exports/batch_" ++ toString seq ++ "_worker_" ++ toString wid ++ ".json"

/-- The cast on main.go line 139: the `"_id"` field of the last result,
type-asserted to `primitive.ObjectID`.  Returns `none` exactly when the
Go type assertion would panic (missing `"_id"` field or a non-ObjectID
value). -/
def lastIDOf (results : List Doc) : Option Nat :=
  match results.getLast? with
  | some d => idOf d
  | none => none

/-- One iteration of the `for` loop on main.go lines 93-146, in the
code's order: Find (line 101, may fail), cursor.All (line 112, may
fail), the emptiness check (line 118), os.Create (line 125, may fail),
Encode (line 132, may fail; the file is complete only if it succeeds),
the `_id` cast (line 139, may panic), saveLastID (line 140, failure is
logged and the loop continues), batchNum increment (line 145).  On
every fatal error the worker returns without touching the checkpoint. -/
def laneStep (store : List Doc) (wid : Nat) (f : Faults) (st : LaneState) : StepRes :=
  if f.fetchErr then StepRes.stop st LaneStatus.failed
  else if f.decodeErr then StepRes.stop st LaneStatus.failed
  else
    let results := findBatch store st.cursor
    if results.isEmpty then StepRes.stop st LaneStatus.done
    else if f.createErr then StepRes.stop st LaneStatus.failed
    else if f.encodeErr then StepRes.stop st LaneStatus.failed
    else
      let files' := st.files ++ [(filePathFor st.batchNum wid, results)]
      match lastIDOf results with
      | none => StepRes.stop { st with files := files' } LaneStatus.panicked
      | some k =>
        StepRes.next
          { cursor := k
            batchNum := st.batchNum + 1
            files := files'
            checkpoint := if f.saveErr then st.checkpoint else some (oidHex k) }

/-- The whole inner loop, driven by a stream of fault oracles (one per
iteration; the stream defaults to `noFaults` when exhausted) and a fuel
bound.  Fuel adequacy is proved separately, not assumed. -/
def runLane (store : List Doc) (wid : Nat) :
    Nat → List Faults → LaneState → LaneState × LaneStatus
  | 0, _, st => (st, LaneStatus.outOfFuel)
  | fuel + 1, fs, st =>
    match laneStep store wid (fs.headD noFaults) st with
    | StepRes.stop st' status => (st', status)
    | StepRes.next st' => runLane store wid fuel fs.tail st'

/-- The lane state a worker starts from: cursor from the checkpoint
file via `loadLastID`, `batchNum := 1`, no files written yet. -/
def initState (cp : Option (List Char)) : LaneState :=
  { cursor := loadLastID cp, batchNum := 1, files := [], checkpoint := cp }

/-!  The coordinator (`main`, lines 29-85) with its shutdown protocol.

`main` starts `workers = 1` worker goroutine, sends the loaded cursor
on the buffered channel `workChan` (line 71), spawns a goroutine that
runs `close(workChan)` after `wg.Wait()` returns (lines 74-77), then
blocks in `wg.Wait()` (line 80) and finally logs the completion message
and the elapsed time (lines 82-84) and returns, exiting the process
with code 0.  The worker's outer loop `for lastID := range workChan`
(line 91) terminates only when the channel is closed, and the deferred
`wg.Done()` (line 89) runs only when `exportWorker` returns. -/

/-- Timing skeleton of the shutdown protocol for the successful path
(the worker's inner loop finished with `break` and the worker is back
at `range workChan`).  Each field is the instant (a step counter) at
which the event happens, `none` if it never does.  The two constraints
are read off the code: `close(workChan)` happens strictly after
`wg.Wait()` returns, hence after the worker's `wg.Done()`, hence after
the worker returned (lines 74-77 and 89); and `exportWorker` returns
strictly after `range workChan` observes the close (line 91). -/
structure ShutdownTrace where
  workerRetAt : Option Nat
  chanClosedAt : Option Nat
  close_after_ret : ∀ t, chanClosedAt = some t → ∃ s, workerRetAt = some s ∧ s < t
  ret_after_close : ∀ t, workerRetAt = some t → ∃ s, chanClosedAt = some s ∧ s < t

/-- What the observer of the process sees at exit. -/
structure ProcessReport where
  loggedCompletion : Bool
  exitCode : Nat
deriving DecidableEq, Repr

/-- The fate of one run of `main`, for the single configured worker. -/
inductive ProcessOutcome
  | reported (r : ProcessReport) (st : LaneState)
  | deadlock (st : LaneState)
  | crashed (st : LaneState)
  | unknown
deriving DecidableEq, Repr

/-- One run of `main` after a successful connect, over a given store, a
fault stream and an initial checkpoint-file state.  If the single lane
fails, `exportWorker` returns, the deferred `wg.Done` releases both
`wg.Wait` calls, the channel closes and main logs
"Export completed successfully!" and the elapsed time and exits 0 —
there is no failure tracking, so the report is identical to the success
report.  If the lane reaches `done` (empty page, `break`), the worker
re-enters `range workChan` and blocks forever: the channel is closed
only after `wg.Wait()`, which waits for this very worker — every
goroutine is blocked and the Go runtime aborts with a deadlock fault;
the completion message is never logged.  If the line-139 cast panics,
the runtime crashes the whole process. -/
def mainModel (store : List Doc) (fuel : Nat) (fs : List Faults)
    (cp : Option (List Char)) : ProcessOutcome :=
  let r := runLane store 0 fuel fs (initState cp)
  match r.2 with
  | LaneStatus.failed =>
      ProcessOutcome.reported { loggedCompletion := true, exitCode := 0 } r.1
  | LaneStatus.done => ProcessOutcome.deadlock r.1
  | LaneStatus.panicked => ProcessOutcome.crashed r.1
  | LaneStatus.outOfFuel => ProcessOutcome.unknown

/-- The lane state carried by a step result. -/
def stateOf : StepRes → LaneState
  | StepRes.stop st _ => st
  | StepRes.next st => st

/-- Invariant for claim C2: the persisted checkpoint is either still the
initial checkpoint-file content, or the hex form of the last `_id` of
one of the successfully written batch files. -/
def CkptOK (cp0 : Option (List Char)) (st : LaneState) : Prop :=
  st.checkpoint = cp0 ∨
    ∃ e ∈ st.files, ∃ k, lastIDOf e.2 = some k ∧ st.checkpoint = some (oidHex k)

/-- For claim C9: every written file is named with its 1-based position
in the write order. -/
def FileNamesOK (wid : Nat) (st : LaneState) : Prop :=
  ∀ i, (h : i < st.files.length) → (st.files.get ⟨i, h⟩).1 = filePathFor (i + 1) wid

/-- Invariant for claim C9: the file names are positional and the batch
counter is one past the number of files written so far. -/
def NamesOK (wid : Nat) (st : LaneState) : Prop :=
  st.batchNum = st.files.length + 1 ∧ FileNamesOK wid st

/-!  Theorems.  First the hex codec, then facts about the query, then
the claims. -/

theorem hexVal_hexDigit (d : Nat) (hd : d < 16) : hexVal (hexDigit d) = some d := by
  interval_cases d <;> rfl

theorem hexDigit_not_space (d : Nat) (hd : d < 16) :
    isSpaceChar (hexDigit d) = false := by
  interval_cases d <;> rfl

theorem hexChars_length (w n : Nat) : (hexChars w n).length = w := by
  induction w generalizing n with
  | zero => rfl
  | succ w ih => simp [hexChars, ih]

theorem allHex_hexChars (w n : Nat) : allHex (hexChars w n) = true := by
  induction w generalizing n with
  | zero => rfl
  | succ w ih =>
    simp only [hexChars, allHex, List.all_append, Bool.and_eq_true]
    refine ⟨ih _, ?_⟩
    simp [allHex, hexVal_hexDigit (n % 16) (Nat.mod_lt _ (by norm_num))]

theorem hexValue_append (l₁ l₂ : List Char) :
    hexValue (l₁ ++ l₂) =
      l₂.foldl (fun acc c => acc * 16 + ((hexVal c).getD 0)) (hexValue l₁) := by
  simp [hexValue, List.foldl_append]

theorem hexValue_hexChars (w n : Nat) (h : n < 16 ^ w) :
    hexValue (hexChars w n) = n := by
  induction w generalizing n with
  | zero =>
    simp only [Nat.pow_zero, Nat.lt_one_iff] at h
    simp [hexChars, hexValue, h]
  | succ w ih =>
    have hdiv : n / 16 < 16 ^ w := by
      rw [Nat.div_lt_iff_lt_mul (by norm_num)]
      calc n < 16 ^ (w + 1) := h
        _ = 16 ^ w * 16 := by ring
    have hmod : n % 16 < 16 := Nat.mod_lt _ (by norm_num)
    simp only [hexChars, hexValue_append, List.foldl_cons, List.foldl_nil,
      ih (n / 16) hdiv, hexVal_hexDigit (n % 16) hmod]
    simp only [Option.getD_some]
    rw [Nat.mul_comm]
    exact Nat.div_add_mod n 16

theorem trimSpace_eq_self (l : List Char) (h : ∀ c ∈ l, isSpaceChar c = false) :
    trimSpace l = l := by
  have h₁ : l.dropWhile isSpaceChar = l := by
    cases l with
    | nil => rfl
    | cons a l => rw [List.dropWhile_cons_of_neg]; simp [h a (by simp)]
  have h₂ : l.reverse.dropWhile isSpaceChar = l.reverse := by
    cases hr : l.reverse with
    | nil => rfl
    | cons a t =>
      rw [List.dropWhile_cons_of_neg]
      have : a ∈ l.reverse := by rw [hr]; simp
      simp [h a (List.mem_reverse.mp this)]
  simp [trimSpace, h₁, h₂]

theorem trimSpace_oidHex (c : Nat) : trimSpace (oidHex c) = oidHex c := by
  refine trimSpace_eq_self _ ?_
  intro ch hch
  have : ∀ w n, ∀ d ∈ hexChars w n, isSpaceChar d = false := by
    intro w
    induction w with
    | zero => intro n d hd; simp [hexChars] at hd
    | succ w ih =>
      intro n d hd
      simp only [hexChars, List.mem_append, List.mem_singleton] at hd
      rcases hd with hd | hd
      · exact ih _ d hd
      · rw [hd]; exact hexDigit_not_space _ (Nat.mod_lt _ (by norm_num))
  exact this 24 c ch hch

theorem objectIDFromHex_oidHex (c : Nat) (h : c < 16 ^ 24) :
    objectIDFromHex (oidHex c) = some c := by
  simp [objectIDFromHex, oidHex, hexChars_length, allHex_hexChars,
    hexValue_hexChars 24 c h]

-- Facts about the modelled Find call.

theorem mem_findBatch {store : List Doc} {c : Nat} {d : Doc}
    (hd : d ∈ findBatch store c) : d ∈ store ∧ matchFilter c d = true := by
  have h1 : d ∈ (store.filter (matchFilter c)).insertionSort keyLE :=
    List.mem_of_mem_take hd
  have h2 : d ∈ store.filter (matchFilter c) :=
    (List.perm_insertionSort keyLE _).subset h1
  exact ⟨(List.mem_filter.mp h2).1, (List.mem_filter.mp h2).2⟩

theorem sorted_findBatch (store : List Doc) (c : Nat) :
    List.Sorted keyLE (findBatch store c) :=
  List.Pairwise.sublist (List.take_sublist _ _) (List.sorted_insertionSort keyLE _)

theorem length_findBatch_le (store : List Doc) (c : Nat) :
    (findBatch store c).length ≤ batchSize := by
  exact List.length_take_le batchSize _

theorem sorted_le_getLast {l : List Doc} (hs : List.Sorted keyLE l)
    {d : Doc} (hd : d ∈ l) (hne : l ≠ []) : keyD d ≤ keyD (l.getLast hne) := by
  have hsplit := List.dropLast_append_getLast hne
  rw [← hsplit] at hs hd
  rcases List.mem_append.mp hd with hmem | hmem
  · have := (List.pairwise_append.mp hs).2.2 d hmem (l.getLast hne) (by simp)
    exact this
  · rw [List.mem_singleton.mp hmem]

/-!  Claim C6: `loadLastID` never fails the caller. -/

/-- C6.  Loading the checkpoint is total and never fails: an absent or
unreadable file yields the nil cursor `0`, a file whose trimmed content
does not parse as an ObjectID yields the nil cursor, and a file whose
trimmed content parses yields exactly the stored cursor. -/
theorem load_never_fails :
    loadLastID none = 0 ∧
    (∀ s, objectIDFromHex (trimSpace s) = none → loadLastID (some s) = 0) ∧
    (∀ s k, objectIDFromHex (trimSpace s) = some k → loadLastID (some s) = k) := by
  refine ⟨rfl, ?_, ?_⟩
  · intro s h; simp [loadLastID, h]
  · intro s k h; simp [loadLastID, h]

/-- Witness for C6, at the concrete inputs: the absent file, the
unparsable content `"zz"`, and a stored cursor `5`. -/
theorem load_never_fails_witness :
    loadLastID none = 0 ∧
    loadLastID (some ['z', 'z']) = 0 ∧
    loadLastID (some (oidHex 5)) = 5 :=
  ⟨load_never_fails.1,
   load_never_fails.2.1 ['z', 'z'] (by decide),
   load_never_fails.2.2 (oidHex 5) 5 (by
     rw [trimSpace_oidHex]
     exact objectIDFromHex_oidHex 5 (by norm_num))⟩

/-!  Claim C7: save/load round-trip. -/

/-- C7.  For every cursor `c` in the ObjectID range, after a successful
`saveLastID c` (which writes exactly the 24-digit hex form) and no
intervening save, `loadLastID` parses the file back to exactly `c`. -/
theorem save_load_roundtrip (c : Nat) (h : c < 16 ^ 24) :
    loadLastID (some (saveLastIDContent c)) = c := by
  simp [loadLastID, saveLastIDContent, trimSpace_oidHex, objectIDFromHex_oidHex c h]

/-- Witness for C7 at the concrete cursor `3`. -/
theorem save_load_roundtrip_witness :
    3 < 16 ^ 24 ∧ loadLastID (some (saveLastIDContent 3)) = 3 :=
  ⟨by norm_num, save_load_roundtrip 3 (by norm_num)⟩

/-!  Claim C1: the fetch is strict-forward, sorted, and bounded. -/

/-- C1.  The fetch issued by a lane at cursor `c`: (i) for a non-nil
cursor every returned record's ObjectID key is strictly greater than
`c` (no record with key at most `c` is re-fetched); (ii) the result is
sorted ascending by `_id`; (iii) its size is bounded by the configured
batch size, which is 100000; (iv) for the nil cursor the filter is
empty, so the fetch is the first `batchSize` records of the whole set
in ascending order — it starts at the beginning of the set. -/
theorem fetch_strict_forward (store : List Doc) (c : Nat) :
    (c ≠ 0 → ∀ d ∈ findBatch store c, ∀ k, idOf d = some k → c < k) ∧
    List.Sorted keyLE (findBatch store c) ∧
    ((findBatch store c).length ≤ batchSize ∧ batchSize = 100000) ∧
    (c = 0 → findBatch store c = (store.insertionSort keyLE).take batchSize) := by
  refine ⟨?_, sorted_findBatch store c, ⟨length_findBatch_le store c, rfl⟩, ?_⟩
  · intro hc d hd k hk
    have hm := (mem_findBatch hd).2
    rw [matchFilter, if_neg hc, hk] at hm
    exact of_decide_eq_true hm
  · intro hc
    have : store.filter (matchFilter c) = store := by
      refine List.filter_eq_self.mpr fun d _ => ?_
      simp [matchFilter, hc]
    rw [findBatch, this]

/-- Witness for C1 at a concrete two-record store and the cursor `3`:
both hypotheses of the strict-forward part and the nil-cursor part are
discharged at explicit inputs. -/
theorem fetch_strict_forward_witness :
    3 < 5 ∧
    findBatch [[("_id", BVal.oid 5)]] 0 =
      ([[("_id", BVal.oid 5)]].insertionSort keyLE).take batchSize := by
  constructor
  · exact (fetch_strict_forward [[("_id", BVal.oid 5)]] 3).1 (by decide)
      [("_id", BVal.oid 5)] (by decide) 5 rfl
  · exact (fetch_strict_forward [[("_id", BVal.oid 5)]] 0).2.2.2 rfl

theorem lastIDOf_eq_idOf_getLast (l : List Doc) (hne : l ≠ []) :
    lastIDOf l = idOf (l.getLast hne) := by
  rw [lastIDOf, List.getLast?_eq_getLast l hne]

/-!  Claim C3: the checkpoint after a non-empty page is the page max. -/

/-- C3.  Whenever one loop iteration continues (the page was non-empty
and fully exported), the next cursor is the ObjectID of the fetched
page's last record under ascending sort, it is the maximum key of the
page, and — whenever the save does not fail — the persisted checkpoint
content is exactly its hex form, i.e. the value handed to
`saveLastID`. -/
theorem checkpoint_is_page_max (store : List Doc) (wid : Nat) (f : Faults)
    (st st' : LaneState) (h : laneStep store wid f st = StepRes.next st') :
    ∃ hne : findBatch store st.cursor ≠ [],
      idOf ((findBatch store st.cursor).getLast hne) = some st'.cursor ∧
      (∀ d ∈ findBatch store st.cursor, keyD d ≤ st'.cursor) ∧
      (f.saveErr = false → st'.checkpoint = some (oidHex st'.cursor)) := by
  simp only [laneStep] at h
  split at h
  · simp at h
  split at h
  · simp at h
  split at h
  · simp at h
  split at h
  · simp at h
  split at h
  · simp at h
  split at h
  · simp at h
  rename_i k hlast
  injection h with h'
  subst h'
  have hne : findBatch store st.cursor ≠ [] := by
    intro hnil
    rw [hnil] at hlast
    simp [lastIDOf] at hlast
  refine ⟨hne, ?_, ?_, ?_⟩
  · rw [← lastIDOf_eq_idOf_getLast _ hne, hlast]
  · intro d hd
    have hle := sorted_le_getLast (sorted_findBatch store st.cursor) hd hne
    have hkey : keyD ((findBatch store st.cursor).getLast hne) = k := by
      rw [keyD, ← lastIDOf_eq_idOf_getLast _ hne, hlast]
      rfl
    simpa [hkey] using hle
  · intro hs
    simp [hs]

/-- Witness for C3: a concrete two-record store, nil cursor, no faults;
the step continues and every conclusion is evaluated. -/
theorem checkpoint_is_page_max_witness :
    ∃ hne : findBatch [[("_id", BVal.oid 7)], [("_id", BVal.oid 4)]] 0 ≠ [],
      idOf ((findBatch [[("_id", BVal.oid 7)], [("_id", BVal.oid 4)]] 0).getLast hne) =
          some 7 ∧
      (∀ d ∈ findBatch [[("_id", BVal.oid 7)], [("_id", BVal.oid 4)]] 0,
          keyD d ≤ 7) ∧
      (noFaults.saveErr = false →
        some (oidHex 7) = some (oidHex 7)) := by
  have h := checkpoint_is_page_max
    [[("_id", BVal.oid 7)], [("_id", BVal.oid 4)]] 0 noFaults
    { cursor := 0, batchNum := 1, files := [], checkpoint := none }
    { cursor := 7, batchNum := 2,
      files := [(filePathFor 1 0, findBatch [[("_id", BVal.oid 7)], [("_id", BVal.oid 4)]] 0)],
      checkpoint := some (oidHex 7) }
    (by decide)
  obtain ⟨hne, h1, h2, _⟩ := h
  exact ⟨hne, h1, h2, fun _ => rfl⟩

-- Per-step lemmas used by the checkpoint-ordering claim.

theorem laneStep_failed_frame (store : List Doc) (wid : Nat) (f : Faults)
    (st st' : LaneState)
    (h : laneStep store wid f st = StepRes.stop st' LaneStatus.failed) : st' = st := by
  simp only [laneStep] at h
  split at h
  · injection h with h1 _; exact h1.symm
  split at h
  · injection h with h1 _; exact h1.symm
  split at h
  · injection h with _ h2; simp at h2
  split at h
  · injection h with h1 _; exact h1.symm
  split at h
  · injection h with h1 _; exact h1.symm
  split at h
  · injection h with _ h2; simp at h2
  · simp at h

theorem laneStep_ckpt (cp0 : Option (List Char)) (store : List Doc) (wid : Nat)
    (f : Faults) (st : LaneState) (h : CkptOK cp0 st) :
    CkptOK cp0 (stateOf (laneStep store wid f st)) := by
  have hmono : ∀ extra : List (String × List Doc), ∀ st₁ : LaneState,
      st₁.checkpoint = st.checkpoint → st₁.files = st.files ++ extra →
      CkptOK cp0 st₁ := by
    intro extra st₁ hcp hfi
    rcases h with hc | ⟨e, he, k, hk, hc⟩
    · exact Or.inl (hcp.trans hc)
    · exact Or.inr ⟨e, by rw [hfi]; exact List.mem_append_left _ he, k, hk, hcp.trans hc⟩
  simp only [laneStep]
  split
  · exact h
  split
  · exact h
  split
  · exact h
  split
  · exact h
  split
  · exact h
  split
  · exact hmono [(filePathFor st.batchNum wid, findBatch store st.cursor)] _ rfl rfl
  · rename_i k hlast
    by_cases hs : f.saveErr
    · exact hmono [(filePathFor st.batchNum wid, findBatch store st.cursor)] _
        (by simp [stateOf, hs]) rfl
    · refine Or.inr ⟨(filePathFor st.batchNum wid, findBatch store st.cursor),
        ?_, k, hlast, ?_⟩
      · simp [stateOf]
      · simp [stateOf, hs]

theorem runLane_fst_eq_stateOf (store : List Doc) (wid fuel : Nat)
    (fs : List Faults) (st : LaneState) (P : LaneState → Prop)
    (hstep : ∀ f s, P s → P (stateOf (laneStep store wid f s)))
    (h : P st) : P (runLane store wid fuel fs st).1 := by
  induction fuel generalizing fs st with
  | zero => exact h
  | succ fuel ih =>
    rw [runLane]
    cases hl : laneStep store wid (fs.headD noFaults) st with
    | stop st' status =>
      have := hstep (fs.headD noFaults) st h
      rw [hl] at this
      exact this
    | next st' =>
      have := hstep (fs.headD noFaults) st h
      rw [hl] at this
      exact ih fs.tail st' this

/-!  Claim C2: the checkpoint advances only behind successful writes. -/

/-- C2.  (i) Whenever a loop iteration ends the lane with `failed` — a
fetch, decode, file-creation or encode error — the lane state is
untouched: no file is recorded and, in particular, no checkpoint save
happens in that iteration.  (ii) Along any run of the lane from its
initial state, whatever the store, the fuel and the injected faults,
the persisted checkpoint is either still the initial file content or
the hex form of the last `_id` of one of the successfully written batch
files — it never advances past a batch that was not fully written. -/
theorem checkpoint_follows_write (store : List Doc) (wid : Nat) :
    (∀ f st st', laneStep store wid f st = StepRes.stop st' LaneStatus.failed →
      st' = st) ∧
    (∀ fuel fs cp, CkptOK cp (runLane store wid fuel fs (initState cp)).1) := by
  refine ⟨laneStep_failed_frame store wid, ?_⟩
  intro fuel fs cp
  refine runLane_fst_eq_stateOf store wid fuel fs (initState cp) (CkptOK cp)
    (fun f s hs => laneStep_ckpt cp store wid f s hs) ?_
  exact Or.inl rfl

/-- Witness for C2: the failure frame applied to a concrete
fetch-failure step, and the invariant evaluated on a one-step run. -/
theorem checkpoint_follows_write_witness :
    initState none = initState none ∧
    CkptOK none (runLane [] 0 1 [] (initState none)).1 :=
  ⟨(checkpoint_follows_write [] 0).1 { fetchErr := true } (initState none)
      (initState none) rfl,
   (checkpoint_follows_write [] 0).2 1 [] none⟩

-- Per-step lemmas used by the file-naming claim.

theorem fileNames_append (wid : Nat) (st : LaneState) (h : NamesOK wid st)
    (page : List Doc) (st₁ : LaneState)
    (hfi : st₁.files = st.files ++ [(filePathFor st.batchNum wid, page)]) :
    FileNamesOK wid st₁ := by
  intro i hi
  rcases h with ⟨hbn, hnames⟩
  have hlen : st₁.files.length = st.files.length + 1 := by simp [hfi]
  rcases Nat.lt_or_ge i st.files.length with hlt | hge
  · have : st₁.files.get ⟨i, hi⟩ = st.files.get ⟨i, hlt⟩ := by
      simp only [hfi, List.get_eq_getElem]
      exact List.getElem_append_left hlt
    rw [this]
    exact hnames i hlt
  · have hieq : i = st.files.length := by omega
    have : st₁.files.get ⟨i, hi⟩ = (filePathFor st.batchNum wid, page) := by
      simp only [hfi, List.get_eq_getElem]
      subst hieq
      simp
    rw [this, hbn, hieq]

theorem laneStep_names_stop (store : List Doc) (wid : Nat) (f : Faults)
    (st : LaneState) (h : NamesOK wid st) (st' : LaneState) (status : LaneStatus)
    (hs : laneStep store wid f st = StepRes.stop st' status) : FileNamesOK wid st' := by
  simp only [laneStep] at hs
  split at hs
  · injection hs with h1 _; rw [← h1]; exact h.2
  split at hs
  · injection hs with h1 _; rw [← h1]; exact h.2
  split at hs
  · injection hs with h1 _; rw [← h1]; exact h.2
  split at hs
  · injection hs with h1 _; rw [← h1]; exact h.2
  split at hs
  · injection hs with h1 _; rw [← h1]; exact h.2
  split at hs
  · injection hs with h1 _
    exact fileNames_append wid st h _ st' (by rw [← h1])
  · simp at hs

theorem laneStep_names_next (store : List Doc) (wid : Nat) (f : Faults)
    (st : LaneState) (h : NamesOK wid st) (st' : LaneState)
    (hs : laneStep store wid f st = StepRes.next st') : NamesOK wid st' := by
  simp only [laneStep] at hs
  split at hs
  · simp at hs
  split at hs
  · simp at hs
  split at hs
  · simp at hs
  split at hs
  · simp at hs
  split at hs
  · simp at hs
  split at hs
  · simp at hs
  rename_i k hlast
  injection hs with h1
  subst h1
  constructor
  · simp [h.1]
  · exact fileNames_append wid st h _ _ rfl

theorem runLane_names (store : List Doc) (wid : Nat) :
    ∀ fuel fs st, NamesOK wid st →
      FileNamesOK wid (runLane store wid fuel fs st).1 := by
  intro fuel
  induction fuel with
  | zero => intro fs st h; exact h.2
  | succ fuel ih =>
    intro fs st h
    rw [runLane]
    cases hl : laneStep store wid (fs.headD noFaults) st with
    | stop st' status => exact laneStep_names_stop store wid _ st h st' status hl
    | next st' => exact ih fs.tail st' (laneStep_names_next store wid _ st h st' hl)

theorem laneStep_next_saveErr (store : List Doc) (wid : Nat) (f : Faults)
    (st st' : LaneState) (h : laneStep store wid f st = StepRes.next st') :
    st'.batchNum = st.batchNum + 1 ∧
      laneStep store wid { f with saveErr := true } st =
        StepRes.next { st' with checkpoint := st.checkpoint } := by
  rcases f with ⟨fe, de, ce, ee, se⟩
  simp only [laneStep] at h ⊢
  cases fe
  case true => simp at h
  cases de
  case true => simp at h
  cases ce
  case true => simp at h; split at h <;> simp at h
  cases ee
  case true => simp at h; split at h <;> simp at h
  simp only [Bool.false_eq_true, if_false] at h ⊢
  cases hemp : (findBatch store st.cursor).isEmpty with
  | true => rw [hemp] at h; simp at h
  | false =>
    rw [hemp] at h
    simp only [Bool.false_eq_true, if_false] at h ⊢
    cases hlast : lastIDOf (findBatch store st.cursor) with
    | none => rw [hlast] at h; simp at h
    | some k =>
      rw [hlast] at h
      injection h with h1
      subst h1
      exact ⟨rfl, rfl⟩

/-!  Claim C9: positional, per-lane, save-independent batch naming. -/

/-- C9.  (i) Along any run of a lane from its initial state, the i-th
successfully written file (1-based) is named
`exports/batch_<i>_worker_<lane>.json` — the sequence starts at 1 per
lane per invocation and increments by exactly one per written batch,
whatever faults (including checkpoint-save failures) are injected.
(ii) Per step: a continuing iteration increments the batch counter by
exactly one, and if the same iteration is replayed with the checkpoint
save failing, the lane still continues, with the same files and batch
counter, only the persisted checkpoint differing. -/
theorem batch_file_naming (store : List Doc) (wid : Nat) :
    (∀ fuel fs cp, FileNamesOK wid (runLane store wid fuel fs (initState cp)).1) ∧
    (∀ f st st', laneStep store wid f st = StepRes.next st' →
      st'.batchNum = st.batchNum + 1 ∧
        laneStep store wid { f with saveErr := true } st =
          StepRes.next { st' with checkpoint := st.checkpoint }) := by
  constructor
  · intro fuel fs cp
    exact runLane_names store wid fuel fs (initState cp) ⟨rfl, by intro i hi; simp [initState] at hi⟩
  · exact laneStep_next_saveErr store wid

/-- Witness for C9: the run part evaluated on a concrete one-record
store, and the step part applied to the concrete continuing step. -/
theorem batch_file_naming_witness :
    FileNamesOK 0 (runLane [[("_id", BVal.oid 7)]] 0 2 [] (initState none)).1 ∧
    ({ cursor := 7, batchNum := 2,
       files := [(filePathFor 1 0, findBatch [[("_id", BVal.oid 7)]] 0)],
       checkpoint := some (oidHex 7) } : LaneState).batchNum = 1 + 1 :=
  ⟨(batch_file_naming [[("_id", BVal.oid 7)]] 0).1 2 [] none,
   ((batch_file_naming [[("_id", BVal.oid 7)]] 0).2 noFaults (initState none)
      { cursor := 7, batchNum := 2,
        files := [(filePathFor 1 0, findBatch [[("_id", BVal.oid 7)]] 0)],
        checkpoint := some (oidHex 7) } (by decide)).1⟩

-- Termination adequacy of the fuelled loop: over a store of non-nil
-- ObjectID-keyed documents, with no injected faults, the lane reaches
-- `done` whenever the fuel exceeds the number of records ahead of the
-- cursor — the cursor strictly advances on every non-empty page.

theorem matchFilter_mono (c k : Nat) (hck : c = 0 ∨ c < k) (d : Doc)
    (hd : matchFilter k d = true) : matchFilter c d = true := by
  by_cases hc0 : c = 0
  · simp [matchFilter, hc0]
  · have hc : c < k := by rcases hck with h | h <;> omega
    have hk : ¬k = 0 := by omega
    rw [matchFilter, if_neg hk] at hd
    rw [matchFilter, if_neg hc0]
    rcases hid : idOf d with _ | j
    · rw [hid] at hd; simp at hd
    · rw [hid] at hd
      have : k < j := of_decide_eq_true hd
      simpa using Nat.lt_trans hc this

theorem filtered_strict_decrease (store : List Doc) (c k : Nat) (d0 : Doc)
    (hd0 : d0 ∈ store) (hp : matchFilter c d0 = true) (hid : idOf d0 = some k)
    (hkpos : 0 < k) (hck : c = 0 ∨ c < k) :
    (store.filter (matchFilter k)).length < (store.filter (matchFilter c)).length := by
  have heq : (store.filter (matchFilter c)).filter (matchFilter k) =
      store.filter (matchFilter k) := by
    rw [List.filter_filter]
    refine List.filter_congr fun a _ => ?_
    cases hmk : matchFilter k a with
    | false => simp
    | true => simp [matchFilter_mono c k hck a hmk]
  rw [← heq]
  refine List.length_filter_lt_length_iff_exists.mpr ⟨d0, List.mem_filter.mpr ⟨hd0, hp⟩, ?_⟩
  rw [matchFilter, if_neg (by omega), hid]
  simp

theorem runLane_done_of_enough_fuel (store : List Doc) (wid : Nat)
    (hpos : PosKeyed store) :
    ∀ fuel st, (store.filter (matchFilter st.cursor)).length < fuel →
      (runLane store wid fuel [] st).2 = LaneStatus.done := by
  intro fuel
  induction fuel with
  | zero => intro st h; omega
  | succ fuel ih =>
    intro st h
    rw [runLane]
    simp only [List.headD_nil, List.tail_nil]
    cases hemp : (findBatch store st.cursor).isEmpty with
    | true =>
      have : laneStep store wid noFaults st = StepRes.stop st LaneStatus.done := by
        simp [laneStep, noFaults, hemp]
      rw [this]
    | false =>
      have hne : findBatch store st.cursor ≠ [] := by
        intro hnil; rw [hnil] at hemp; simp at hemp
      have hmem : (findBatch store st.cursor).getLast hne ∈ findBatch store st.cursor :=
        List.getLast_mem hne
      obtain ⟨k, hid, hkpos⟩ := hpos _ (mem_findBatch hmem).1
      have hlast : lastIDOf (findBatch store st.cursor) = some k := by
        rw [lastIDOf_eq_idOf_getLast _ hne, hid]
      have hstep : laneStep store wid noFaults st = StepRes.next
          { cursor := k, batchNum := st.batchNum + 1,
            files := st.files ++ [(filePathFor st.batchNum wid, findBatch store st.cursor)],
            checkpoint := some (oidHex k) } := by
        simp [laneStep, noFaults, hemp, hlast]
      rw [hstep]
      have hck : st.cursor = 0 ∨ st.cursor < k := by
        have hp := (mem_findBatch hmem).2
        by_cases hc0 : st.cursor = 0
        · exact Or.inl hc0
        · rw [matchFilter, if_neg hc0, hid] at hp
          exact Or.inr (of_decide_eq_true hp)
      have hdec := filtered_strict_decrease store st.cursor k _
        (mem_findBatch hmem).1 (mem_findBatch hmem).2 hid hkpos hck
      exact ih _ (by simp only []; omega)

/-!  Claim C8: an empty store ends the lane at once, with no effects. -/

/-- C8.  On an empty store, provided the first Find and decode calls do
not themselves fault, the very first fetch returns an empty page and
the lane stops with `done`; the final state is exactly the initial one:
zero batch files written, zero checkpoint saves, checkpoint file still
absent (the initial nil value). -/
theorem empty_store_lane_done (wid fuel : Nat) (fs : List Faults)
    (hfuel : 1 ≤ fuel)
    (hfe : (fs.headD noFaults).fetchErr = false)
    (hde : (fs.headD noFaults).decodeErr = false) :
    runLane [] wid fuel fs (initState none) = (initState none, LaneStatus.done) ∧
    (initState none).files = [] ∧ (initState none).checkpoint = none := by
  refine ⟨?_, rfl, rfl⟩
  obtain ⟨m, rfl⟩ : ∃ m, fuel = m + 1 := ⟨fuel - 1, by omega⟩
  rw [runLane]
  have : laneStep [] wid (fs.headD noFaults) (initState none) =
      StepRes.stop (initState none) LaneStatus.done := by
    simp only [laneStep]
    rw [hfe, hde]
    simp [findBatch]
  rw [this]

/-- Witness for C8 at the concrete inputs fuel 1, empty fault stream. -/
theorem empty_store_lane_done_witness :
    runLane [] 0 1 [] (initState none) = (initState none, LaneStatus.done) ∧
    (initState none).files = [] ∧ (initState none).checkpoint = none :=
  empty_store_lane_done 0 1 [] (by omega) rfl rfl

-- The line-139 cast never panics over well-keyed stores.

theorem laneStep_no_panic (store : List Doc) (wid : Nat) (hW : WellKeyed store)
    (f : Faults) (st st' : LaneState) (status : LaneStatus)
    (h : laneStep store wid f st = StepRes.stop st' status) :
    status ≠ LaneStatus.panicked := by
  simp only [laneStep] at h
  split at h
  · injection h with _ h2; rw [← h2]; simp
  split at h
  · injection h with _ h2; rw [← h2]; simp
  split at h
  · injection h with _ h2; rw [← h2]; simp
  split at h
  · injection h with _ h2; rw [← h2]; simp
  split at h
  · injection h with _ h2; rw [← h2]; simp
  split at h
  · rename_i hemp _ _ _ hlast
    exfalso
    have hne : findBatch store st.cursor ≠ [] := by
      intro hnil; rw [hnil] at hemp; simp at hemp
    have hmem := List.getLast_mem hne
    have hsome := hW _ (mem_findBatch hmem).1
    rw [lastIDOf_eq_idOf_getLast _ hne] at hlast
    rw [hlast] at hsome
    simp at hsome
  · simp at h

theorem runLane_no_panic (store : List Doc) (wid : Nat) (hW : WellKeyed store) :
    ∀ fuel fs st, (runLane store wid fuel fs st).2 ≠ LaneStatus.panicked := by
  intro fuel
  induction fuel with
  | zero => intro fs st; simp [runLane]
  | succ fuel ih =>
    intro fs st
    rw [runLane]
    cases hl : laneStep store wid (fs.headD noFaults) st with
    | stop st' status =>
      exact laneStep_no_panic store wid hW _ st st' status hl
    | next st' => exact ih fs.tail st'

/-!  Claim C10: the unconditional `_id` cast after a non-empty fetch. -/

/-- C10.  The cast of the last record's `"_id"` to an ObjectID is a
genuine partial operation — on a page whose last record has a
string-typed `"_id"` it returns `none`, i.e. the Go type assertion
panics — but under the precondition that every store record carries an
ObjectID-typed `"_id"`, the panic branch of the worker loop is
unreachable: no run of the lane ever ends in the `panicked` status. -/
theorem id_cast_panic_guard :
    lastIDOf [[("_id", BVal.str ['x'])]] = none ∧
    (∀ page : List Doc, page ≠ [] → (∀ d ∈ page, (idOf d).isSome) →
      ∃ k, lastIDOf page = some k) ∧
    (∀ store : List Doc, WellKeyed store → ∀ wid fuel fs st,
      (runLane store wid fuel fs st).2 ≠ LaneStatus.panicked) := by
  refine ⟨rfl, ?_, ?_⟩
  · intro page hne hids
    have hmem := List.getLast_mem hne
    have hsome := hids _ hmem
    rw [lastIDOf_eq_idOf_getLast _ hne]
    exact Option.isSome_iff_exists.mp hsome
  · intro store hW wid fuel fs st
    exact runLane_no_panic store wid hW fuel fs st

/-- Witness for C10: the guarded parts applied at a concrete one-record
ObjectID-keyed page and a concrete run. -/
theorem id_cast_panic_guard_witness :
    (∃ k, lastIDOf [[("_id", BVal.oid 9)]] = some k) ∧
    (runLane [[("_id", BVal.oid 9)]] 0 2 [] (initState none)).2 ≠
      LaneStatus.panicked :=
  ⟨id_cast_panic_guard.2.1 [[("_id", BVal.oid 9)]] (by decide) (by decide),
   id_cast_panic_guard.2.2 [[("_id", BVal.oid 9)]] (by
      intro d hd
      rcases List.mem_singleton.mp hd with rfl
      rfl) 0 2 [] (initState none)⟩

/-!  Claim C5 (corrected): a failed lane still ends in a zero-outcome
success report. -/

/-- Counterexample to C5 as stated: a run whose single lane fails on
its first fetch.  The process does exit after the lane finishes, but it
logs the completion message and exits with code 0 — it reports success
and surfaces no non-zero outcome. -/
theorem failure_reports_success_cx :
    mainModel [] 1 [{ fetchErr := true }] none =
      ProcessOutcome.reported { loggedCompletion := true, exitCode := 0 }
        (initState none) := rfl

/-- C5 as amended.  If the lane reaches `FAILED`, the process exits
only after the lane has finished (the report carries the lane final
state), but the outcome is zero and the completion message is logged
anyway: the failure is surfaced only by the lane error log line, never
by the overall outcome. -/
theorem lane_failure_process_outcome (store : List Doc) (fuel : Nat)
    (fs : List Faults) (cp : Option (List Char))
    (h : (runLane store 0 fuel fs (initState cp)).2 = LaneStatus.failed) :
    mainModel store fuel fs cp =
      ProcessOutcome.reported { loggedCompletion := true, exitCode := 0 }
        (runLane store 0 fuel fs (initState cp)).1 := by
  rw [mainModel]
  simp only [h]

/-- Witness for the amended C5, at the concrete failing run. -/
theorem lane_failure_process_outcome_witness :
    mainModel [] 1 [{ fetchErr := true }] none =
      ProcessOutcome.reported { loggedCompletion := true, exitCode := 0 }
        (runLane [] 0 1 [{ fetchErr := true }] (initState none)).1 :=
  lane_failure_process_outcome [] 1 [{ fetchErr := true }] none rfl

/-!  Claim C4 (code bug): completion is never reported on success. -/

/-- C4 fails on the code: on the successful path the worker re-enters
`range workChan` after `break`, and the channel is closed only after
`wg.Wait()`, which waits for this very worker — so the worker never
returns (first conjunct: every timing of the shutdown protocol leaves
the worker return unscheduled), and on the concrete empty-store run the
model ends in runtime deadlock with the completion report never logged
(second conjunct). -/
theorem completion_never_reported :
    (∀ tr : ShutdownTrace, tr.workerRetAt = none) ∧
    mainModel [] 1 [] none = ProcessOutcome.deadlock (initState none) := by
  constructor
  · intro tr
    cases hw : tr.workerRetAt with
    | none => rfl
    | some t =>
      obtain ⟨s, hc, hst⟩ := tr.ret_after_close t hw
      obtain ⟨u, hwu, hus⟩ := tr.close_after_ret s hc
      rw [hw] at hwu
      injection hwu with he
      omega
  · rfl

end MongoExport
